import Mathlib

/-!
Shallow embedding of the `treyktw/transcribe` repository
(`transcribe.py`, `async-transcribe.py`, `transcriptFormatter.py`).

Timestamps (Python floats) are modelled as rationals, Python strings as
`String`, Python dicts as insertion-ordered association lists, and Python
exceptions as `Except`.  Each definition is translated from the source file
and function named in its doc comment.
-/

namespace TranscribeModel

/-- Lexicographic comparison of character lists, the order Python's `sorted`
uses on `str` values (code-point comparison, shorter prefix first). -/
def pyStrLtList : List Char → List Char → Bool
  | [], [] => false
  | [], _ :: _ => true
  | _ :: _, [] => false
  | a :: as, b :: bs => if a < b then true else if b < a then false else pyStrLtList as bs

/-- Non-strict form of the Python string order: `a ≤ b` iff `¬ (b < a)`. -/
def pyStrLe (a b : String) : Bool := !pyStrLtList b.toList a.toList

/-- The whitespace characters removed by Python's `str.strip()` (ASCII part). -/
def isPySpace (c : Char) : Bool :=
  c = ' ' || c = '\t' || c = '\n' || c = '\r' || c = '\x0b' || c = '\x0c'

/-- Python `str.strip()`: drop leading and trailing whitespace. -/
def pyStrip (s : String) : String :=
  String.mk (((s.toList.dropWhile isPySpace).reverse.dropWhile isPySpace).reverse)

/-- A Whisper transcription segment (`result["segments"]` entry): keys
`start`, `end`, `text`. -/
structure TransSegment where
  start : ℚ
  «end» : ℚ
  text : String
deriving DecidableEq

/-- A diarization turn as stored in `speaker_segments`: keys `speaker`,
`start`, `end`. -/
structure SpeakerSeg where
  speaker : String
  start : ℚ
  «end» : ℚ
deriving DecidableEq

/-- An output record appended to `final_segments`: keys `speaker`, `start`,
`end`, `text`, `timestamp`. -/
structure ResolvedSegment where
  speaker : String
  start : ℚ
  «end» : ℚ
  text : String
  timestamp : String
deriving DecidableEq

/-- Temporal overlap of a segment `[segStart, segEnd]` with a turn, the
quantity `max(0, min(segment.end, turn.end) - max(segment.start, turn.start))`
from the spec; the loops below compute exactly this with the `max 0` expressed
as the guard `overlap_end > overlap_start`. -/
def overlapDur (segStart segEnd : ℚ) (t : SpeakerSeg) : ℚ :=
  max 0 (min segEnd t.«end» - max segStart t.start)

/-- One iteration of the speaker-selection loop (`for speaker_seg in
speaker_segments` at `transcribe.py` lines 97-105 and `async-transcribe.py`
lines 94-102), acting on the loop state `(current_speaker, max_overlap)`. -/
def matchStep (segStart segEnd : ℚ) (acc : Option String × ℚ) (t : SpeakerSeg) :
    Option String × ℚ :=
  let overlap_start := max segStart t.start
  let overlap_end := min segEnd t.«end»
  if overlap_end > overlap_start then
    let overlap_duration := overlap_end - overlap_start
    if overlap_duration > acc.2 then (some t.speaker, overlap_duration) else acc
  else acc

/-- The speaker-selection loop shared verbatim by
`transcribe.py::match_transcription_with_speakers` (lines 94-105) and
`async-transcribe.py::process_chunk` (lines 91-102): starting from
`current_speaker = None`, `max_overlap = 0`, a turn replaces the current best
only when its overlap is strictly greater. -/
def findBestSpeaker (segStart segEnd : ℚ) (turns : List SpeakerSeg) :
    Option String × ℚ :=
  turns.foldl (matchStep segStart segEnd) (none, 0)

/-- Two-digit rendering of minutes/seconds inside `str(timedelta(...))`. -/
def padTwo (n : ℤ) : String := if n < 10 then "0" ++ toString n else toString n

/-- Model of Python `str(timedelta(seconds=int(q)))` for the nonnegative,
sub-day durations the scripts format: `H:MM:SS`. -/
def timedeltaStr (q : ℚ) : String :=
  let n := ⌊q⌋
  toString (n / 3600) ++ ":" ++ padTwo (n % 3600 / 60) ++ ":" ++ padTwo (n % 60)

/-- The `timestamp` field: `f"{timedelta(...)} --> {timedelta(...)}"`. -/
def timestampOf (s e : ℚ) : String := timedeltaStr s ++ " --> " ++ timedeltaStr e

/-- Insertion into a Python dict modelled as an insertion-ordered association
list: replace the value of an existing key in place, otherwise append. -/
def dictInsert {β : Type} : List (String × β) → String → β → List (String × β)
  | [], k, v => [(k, v)]
  | (k', v') :: rest, k, v =>
      if k' = k then (k, v) :: rest else (k', v') :: dictInsert rest k v

/-- Python `dict.get(k, v)`. -/
def dictGetD {β : Type} (d : List (String × β)) (k : String) (v : β) : β :=
  (d.lookup k).getD v

end TranscribeModel

namespace Transcribe

open TranscribeModel

/-- The speaker-label choice of `transcribe.py` lines 107-111: the dict value
when `speaker_names` has an entry for the matched speaker, otherwise
`current_speaker if current_speaker else "Unknown"` (Python truthiness:
`None` and the empty string both fall back to `"Unknown"`).  A `lookup` on an
empty list is `none`, which also covers `speaker_names` being falsy. -/
def speakerLabelOf (speaker_names : List (String × String))
    (current_speaker : Option String) : String :=
  match current_speaker with
  | some s =>
      match speaker_names.lookup s with
      | some name => name
      | none => if s = "" then "Unknown" else s
  | none => "Unknown"

/-- `transcribe.py::match_transcription_with_speakers` (lines 85-121): one
output record per transcribed segment, with the speaker chosen by
`findBestSpeaker` over the supplied `speaker_segments`. -/
def matchTranscriptionWithSpeakers (transcription : List TransSegment)
    (speaker_segments : List SpeakerSeg)
    (speaker_names : List (String × String)) : List ResolvedSegment :=
  transcription.map fun trans_segment =>
    let segment_start := trans_segment.start
    let segment_end := trans_segment.«end»
    let current_speaker :=
      (findBestSpeaker segment_start segment_end speaker_segments).1
    { speaker := speakerLabelOf speaker_names current_speaker
      start := segment_start
      «end» := segment_end
      text := pyStrip trans_segment.text
      timestamp := timestampOf segment_start segment_end }

/-- `transcribe.py::find_speaker_introductions` lines 42-47: the texts of
segments with `start <= intro_duration`, joined by a single space. -/
def introText (transcription : List TransSegment) (intro_duration : ℚ) : String :=
  String.intercalate " "
    ((transcription.filter (fun segment => segment.start ≤ intro_duration)).map
      (·.text))

/-- `transcribe.py::find_speaker_introductions` line 53: turns starting within
the introduction window. -/
def introSpeakers (speaker_segments : List SpeakerSeg) (intro_duration : ℚ) :
    List SpeakerSeg :=
  speaker_segments.filter (fun s => s.start ≤ intro_duration)

/-- `transcribe.py::find_speaker_introductions` lines 59-61: `for i, speaker
in enumerate(...): if i < len(names): speaker_names[speaker] = names[i]`,
i.e. dict insertion of the positional pairs of the tag enumeration with the
extracted names, truncated at the shorter list. -/
def pairNames (tags names : List String) : List (String × String) :=
  (tags.zip names).foldl (fun d p => dictInsert d p.1 p.2) []

/-- Admissible iteration orders of the Python set `set(s["speaker"] for s in
intro_speakers)`: some enumeration of the distinct elements of the generated
sequence, in an order CPython does not specify (hash order). -/
def IsSetIteration (xs out : List String) : Prop :=
  out.Nodup ∧ ∀ a, a ∈ out ↔ a ∈ xs

/-- `transcribe.py::find_speaker_introductions` (lines 33-63).  The spaCy
name-extraction collaborator (`extract_names_from_text`, lines 27-31, no
try/except anywhere on the call path) is the parameter `extract_names`; the
iteration order of the Python set at line 59 is the parameter `set_iter`. -/
def findSpeakerIntroductions {ε : Type} (extract_names : String → Except ε (List String))
    (set_iter : List String → List String) (transcription : List TransSegment)
    (speaker_segments : List SpeakerSeg) (intro_duration : ℚ) :
    Except ε (List (String × String)) := do
  let intro_text := introText transcription intro_duration
  let intro_speakers := introSpeakers speaker_segments intro_duration
  let names ← extract_names intro_text
  return pairNames (set_iter (intro_speakers.map (·.speaker))) names

end Transcribe

namespace AsyncTranscribe

open TranscribeModel

/-- Elements of `l` not already in `seen`, keeping first occurrences: the
contents of the Python set, enumerated canonically in first-appearance
order. -/
def dedupAux : List String → List String → List String
  | [], _ => []
  | a :: as, seen =>
      if a ∈ seen then dedupAux as seen else a :: dedupAux as (a :: seen)

/-- Distinct elements of `l` in order of first appearance. -/
def dedupFirst (l : List String) : List String := dedupAux l []

/-- `async-transcribe.py` line 72: `unique_speakers =
sorted(set(speaker for ...))` — the distinct raw diarization tags in
ascending (Python lexicographic) order. -/
def uniqueSpeakers (tags : List String) : List String :=
  List.insertionSort (fun a b => pyStrLe a b = true) (dedupFirst tags)

/-- Association of consecutive `"Speaker n"` labels to a list of tags,
starting at `n`. -/
def labelTags : ℕ → List String → List (String × String)
  | _, [] => []
  | n, t :: ts => (t, "Speaker " ++ toString n) :: labelTags (n + 1) ts

/-- `async-transcribe.py` line 73: `speaker_mapping = {speaker:
f"Speaker {i+1}" for i, speaker in enumerate(unique_speakers)}`. -/
def speakerMapping (tags : List String) : List (String × String) :=
  labelTags 1 (uniqueSpeakers tags)

/-- Modelled from the spec: the per-window labelling the spec describes,
assigning `"Speaker N"` to the distinct tags in order of each tag's first
appearance in the window's diarization output.  Stated for comparison with
`speakerMapping`, which is what the code computes. -/
def firstAppearanceMapping (tags : List String) : List (String × String) :=
  labelTags 1 (dedupFirst tags)

/-- A raw diarization track from `diarization.itertracks(yield_label=True)`:
turn bounds (window-relative) plus the pipeline's opaque speaker tag. -/
structure DiarTurn where
  start : ℚ
  «end» : ℚ
  speaker : String
deriving DecidableEq

/-- `async-transcribe.py` lines 76-82: the `speaker_segments` list — each
track relabelled through `speaker_mapping` and offset by the chunk's
`start_time`.  The dict access `speaker_mapping[speaker]` always succeeds
because every tag is a key; `getD` supplies the (unreachable) default. -/
def chunkSpeakerSegments (start_time : ℚ) (diar : List DiarTurn) :
    List SpeakerSeg :=
  diar.map fun turn =>
    { speaker := ((speakerMapping (diar.map (·.speaker))).lookup turn.speaker).getD
        turn.speaker
      start := turn.start + start_time
      «end» := turn.«end» + start_time }

/-- The speaker-label choice of `async-transcribe.py` line 105:
`current_speaker if current_speaker else "Unknown Speaker"`. -/
def asyncSpeakerLabel (current_speaker : Option String) : String :=
  match current_speaker with
  | some s => if s = "" then "Unknown Speaker" else s
  | none => "Unknown Speaker"

/-- The per-chunk segment construction of `async-transcribe.py::process_chunk`
(lines 84-110), given the collaborator outputs for the chunk. -/
def processChunkCore (start_time : ℚ) (transcription : List TransSegment)
    (diar : List DiarTurn) : List ResolvedSegment :=
  let speaker_segments := chunkSpeakerSegments start_time diar
  transcription.map fun segment =>
    let segment_start := segment.start + start_time
    let segment_end := segment.«end» + start_time
    let current_speaker :=
      (findBestSpeaker segment_start segment_end speaker_segments).1
    { speaker := asyncSpeakerLabel current_speaker
      start := segment_start
      «end» := segment_end
      text := pyStrip segment.text
      timestamp := timestampOf segment_start segment_end }

/-- `async-transcribe.py::process_chunk` with its `try/except` (lines 62-117):
a failing chunk (collaborator raised) is logged and contributes `[]`. -/
def processChunk
    (chunk : Except String (ℚ × List TransSegment × List DiarTurn)) :
    List ResolvedSegment :=
  match chunk with
  | .ok (start_time, transcription, diar) =>
      processChunkCore start_time transcription diar
  | .error _ => []

/-- `async-transcribe.py::process_audio` (lines 119-155): chunks are processed
sequentially, their segments accumulated in order, and the final result —
the content of the last write to `output_path` — is the accumulated list
sorted by `start` (line 150, a stable sort by key). -/
def processAudio
    (chunks : List (Except String (ℚ × List TransSegment × List DiarTurn))) :
    List ResolvedSegment :=
  let all_segments := chunks.foldl (fun acc chunk => acc ++ processChunk chunk) []
  List.insertionSort (fun a b => a.start ≤ b.start) all_segments

/-- The key order `lambda x: x["start"]` used by the final sort is total. -/
instance : IsTotal TranscribeModel.ResolvedSegment (fun a b => a.start ≤ b.start) :=
  ⟨fun a b => le_total a.start b.start⟩

/-- The key order `lambda x: x["start"]` used by the final sort is transitive. -/
instance : IsTrans TranscribeModel.ResolvedSegment (fun a b => a.start ≤ b.start) :=
  ⟨fun _ _ _ hab hbc => le_trans hab hbc⟩

end AsyncTranscribe

namespace TranscriptFormatter

open TranscribeModel

/-- A JSON file in the watched directory as the formatter observes it: its
path, its modification time, and its parsed contents — `none` when
`json.load` (or the read itself) fails because the file is malformed or
unreadable. -/
structure JsonFile where
  path : String
  mtime : ℚ
  contents : Option (List ResolvedSegment)
deriving DecidableEq

/-- `os.path.splitext(p)[0]`: the path with its final extension removed
(last `.` of the last path component). -/
def splitExtBase (p : String) : String :=
  let rev := p.toList.reverse
  let ext := rev.takeWhile (fun c => !(c == '.') && !(c == '/'))
  if (rev.drop ext.length).head? = some '.' then
    String.mk ((rev.drop (ext.length + 1)).reverse)
  else p

/-- `transcriptFormatter.py::get_txt_path` (lines 14-17). -/
def getTxtPath (json_path : String) : String := splitExtBase json_path ++ ".txt"

/-- `os.path.basename`. -/
def basename (p : String) : String :=
  String.mk ((p.toList.reverse.takeWhile (fun c => !(c == '/'))).reverse)

/-- The segment loop of `transcriptFormatter.py::format_transcript`
(lines 37-45): a speaker header line only when the speaker differs from
`current_speaker` (initially `None`), then the timestamp line and the text
line. -/
def formatSegmentLines (data : List ResolvedSegment) : List String :=
  (data.foldl
    (fun (acc : List String × Option String) segment =>
      let acc :=
        if some segment.speaker ≠ acc.2 then
          (acc.1 ++ ["\n[" ++ segment.speaker ++ "]"], some segment.speaker)
        else acc
      (acc.1 ++ [segment.timestamp, segment.text ++ "\n"], acc.2))
    ([], none)).1

/-- `transcriptFormatter.py::format_transcript` rendering (lines 29-49):
header lines, then the segment lines, joined with newlines. -/
def renderTranscript (json_path now : String) (data : List ResolvedSegment) :
    String :=
  String.intercalate "\n"
    (["Transcript: " ++ basename json_path,
      "Generated at: " ++ now,
      String.mk (List.replicate 80 '=') ++ "\n"] ++ formatSegmentLines data)

/-- `transcriptFormatter.py::format_transcript` (lines 19-54): the writes the
call performs.  The whole body is wrapped in `try/except Exception` that only
prints, so a malformed or unreadable file produces no write and no exception
escapes to the caller. -/
def formatTranscript (now : String) (f : JsonFile) : List (String × String) :=
  match f.contents with
  | none => []
  | some data => [(getTxtPath f.path, renderTranscript f.path now data)]

/-- Outcome of a `process_directory` pass: the `processed_files` dict
(`WatchState`), the files on which `format_transcript` was invoked, and the
`(path, text)` writes performed. -/
structure PassResult where
  state : List (String × ℚ)
  attempts : List String
  writes : List (String × String)
deriving DecidableEq

/-- The per-file body of `transcriptFormatter.py::process_directory`
(lines 60-71): compare `os.path.getmtime` with
`processed_files.get(json_path, 0)`; when strictly newer, call
`format_transcript` and then unconditionally record the modification time
(line 69 runs whether or not the file was malformed, because
`format_transcript` swallows its own errors). -/
def processFileStep (now : String) (r : PassResult) (f : JsonFile) : PassResult :=
  let last_processed := dictGetD r.state f.path 0
  if f.mtime > last_processed then
    { state := dictInsert r.state f.path f.mtime
      attempts := r.attempts ++ [f.path]
      writes := r.writes ++ formatTranscript now f }
  else r

/-- `transcriptFormatter.py::process_directory` (lines 56-71): one
reconciliation pass over the directory listing, threading `processed_files`
through the files in order. -/
def processDirectory (now : String) (files : List JsonFile)
    (state0 : List (String × ℚ)) : PassResult :=
  files.foldl (processFileStep now) ⟨state0, [], []⟩

end TranscriptFormatter

namespace FileWrite

/-- File-system operations a writer can perform on one output path (and one
scratch temporary path). -/
inductive FsOp where
  | openTruncate : FsOp
  | writeContent : String → FsOp
  | writeTempFile : String → FsOp
  | renameTempOver : FsOp
deriving DecidableEq

/-- Effect of one operation on the pair (output-path content, temp-file
content). -/
def applyOp : String × Option String → FsOp → String × Option String
  | (_, t), .openTruncate => ("", t)
  | (m, t), .writeContent s => (m ++ s, t)
  | (m, _), .writeTempFile s => (m, some s)
  | (m, t), .renameTempOver => (t.getD m, none)

/-- The sequence of output-path contents a concurrent reader can observe
while the operation list runs: the content before any operation and after
each one. -/
def observedContents (initial : String) (ops : List FsOp) : List String :=
  (ops.scanl applyOp (initial, none)).map Prod.fst

/-- The timeline write discipline used at every write site —
`async-transcribe.py` lines 132-134 (checkpoint) and 152-155 (final), and
`transcribe.py` lines 141-142: `with open(output_path, 'w', ...) as f:
json.dump(all_segments, f, ...)`.  Mode `'w'` truncates the output path in
place, then the serialized document is written to the same path; no
temporary file and no rename are involved. -/
def timelineWriteOps (data : String) : List FsOp :=
  [.openTruncate, .writeContent data]

end FileWrite

namespace TranscribeModel

theorem pyStrLtList_asymm :
    ∀ a b : List Char, pyStrLtList a b = true → pyStrLtList b a = false := by
  intro a
  induction a with
  | nil =>
    intro b hb
    cases b with
    | nil => simp [pyStrLtList] at hb
    | cons x xs => simp [pyStrLtList]
  | cons x xs ih =>
    intro b hb
    cases b with
    | nil => simp [pyStrLtList] at hb
    | cons y ys =>
      simp only [pyStrLtList] at hb ⊢
      by_cases hxy : x < y
      · have hyx : ¬ y < x := lt_asymm hxy
        simp [hxy, hyx]
      · by_cases hyx : y < x
        · simp [hxy, hyx] at hb
        · simp only [hxy, hyx, if_false] at hb ⊢
          simp [ih ys hb]

theorem pyStrLtList_trans_of_not :
    ∀ c a b : List Char, pyStrLtList c a = true → pyStrLtList b a = false →
      pyStrLtList c b = true := by
  intro c
  induction c with
  | nil =>
    intro a b hca hba
    cases a with
    | nil => simp [pyStrLtList] at hca
    | cons a0 as =>
      cases b with
      | nil => simp [pyStrLtList] at hba
      | cons b0 bs => simp [pyStrLtList]
  | cons c0 cs ih =>
    intro a b hca hba
    cases a with
    | nil => simp [pyStrLtList] at hca
    | cons a0 as =>
      cases b with
      | nil => simp [pyStrLtList] at hba
      | cons b0 bs =>
        simp only [pyStrLtList] at hca hba ⊢
        by_cases hba0 : b0 < a0
        · simp [hba0] at hba
        · by_cases hca0 : c0 < a0
          · rcases lt_trichotomy a0 b0 with hab | hab | hab
            · have hcb : c0 < b0 := lt_trans hca0 hab
              simp [hcb]
            · subst hab
              simp [hca0]
            · exact absurd hab hba0
          · by_cases hac0 : a0 < c0
            · simp [hca0, hac0] at hca
            · have hac : a0 = c0 := le_antisymm (le_of_not_lt hca0) (le_of_not_lt hac0)
              subst hac
              simp only [hca0, hac0, if_false] at hca
              by_cases hab0 : a0 < b0
              · simp [hab0]
              · have hab : a0 = b0 := le_antisymm (le_of_not_lt hba0) (le_of_not_lt hab0)
                subst hab
                simp only [hba0, hab0, if_false] at hba ⊢
                exact ih as bs hca hba

theorem pyStrLe_total (a b : String) : pyStrLe a b = true ∨ pyStrLe b a = true := by
  unfold pyStrLe
  by_cases h : pyStrLtList b.toList a.toList = true
  · right
    simp only [Bool.not_eq_true']
    exact pyStrLtList_asymm _ _ h
  · left
    simp [Bool.not_eq_true] at h
    simp [h]

theorem pyStrLe_trans (a b c : String) :
    pyStrLe a b = true → pyStrLe b c = true → pyStrLe a c = true := by
  unfold pyStrLe
  intro hab hbc
  simp only [Bool.not_eq_true'] at hab hbc ⊢
  by_cases h : pyStrLtList c.toList a.toList = true
  · have hcb := pyStrLtList_trans_of_not c.toList a.toList b.toList h hab
    rw [hcb] at hbc
    exact absurd hbc (by simp)
  · simpa using h

theorem overlapDur_nonneg (s e : ℚ) (t : SpeakerSeg) : 0 ≤ overlapDur s e t :=
  le_max_left 0 _

theorem matchStep_eq (s e : ℚ) (acc : Option String × ℚ) (t : SpeakerSeg) :
    matchStep s e acc t =
      if 0 < overlapDur s e t ∧ acc.2 < overlapDur s e t then
        (some t.speaker, overlapDur s e t)
      else acc := by
  simp only [matchStep, overlapDur, gt_iff_lt]
  by_cases h : max s t.start < min e t.«end»
  · have hov : max 0 (min e t.«end» - max s t.start) = min e t.«end» - max s t.start :=
      max_eq_right (by linarith)
    rw [if_pos h, hov]
    by_cases h2 : acc.2 < min e t.«end» - max s t.start
    · rw [if_pos h2, if_pos ⟨by linarith, h2⟩]
    · rw [if_neg h2, if_neg (fun hc => h2 hc.2)]
  · have hov : max 0 (min e t.«end» - max s t.start) = 0 :=
      max_eq_left (by linarith [le_of_not_lt h])
    rw [if_neg h, hov, if_neg (fun hc => lt_irrefl 0 hc.1)]

theorem foldl_matchStep_no_update (s e : ℚ) :
    ∀ (l : List SpeakerSeg) (acc : Option String × ℚ),
      (∀ t ∈ l, overlapDur s e t ≤ acc.2) →
      l.foldl (matchStep s e) acc = acc := by
  intro l
  induction l with
  | nil => intro acc _; rfl
  | cons t ts ih =>
    intro acc h
    have ht : overlapDur s e t ≤ acc.2 := h t (by simp)
    have hstep : matchStep s e acc t = acc := by
      rw [matchStep_eq, if_neg]
      rintro ⟨_, h2⟩
      exact absurd h2 (not_lt.mpr ht)
    rw [List.foldl_cons, hstep]
    exact ih acc (fun u hu => h u (by simp [hu]))

theorem foldl_matchStep_lt (s e m : ℚ) :
    ∀ (l : List SpeakerSeg) (acc : Option String × ℚ),
      acc.2 < m → (∀ t ∈ l, overlapDur s e t < m) →
      (l.foldl (matchStep s e) acc).2 < m := by
  intro l
  induction l with
  | nil => intro acc hacc _; exact hacc
  | cons t ts ih =>
    intro acc hacc h
    rw [List.foldl_cons, matchStep_eq]
    by_cases hc : 0 < overlapDur s e t ∧ acc.2 < overlapDur s e t
    · rw [if_pos hc]
      exact ih _ (h t (by simp)) (fun u hu => h u (by simp [hu]))
    · rw [if_neg hc]
      exact ih _ hacc (fun u hu => h u (by simp [hu]))

theorem foldl_matchStep_sound (s e : ℚ) :
    ∀ (l : List SpeakerSeg) (acc : Option String × ℚ), 0 ≤ acc.2 →
      acc.2 ≤ (l.foldl (matchStep s e) acc).2 ∧
      (l.foldl (matchStep s e) acc = acc ∨
        ∃ t ∈ l, (l.foldl (matchStep s e) acc).1 = some t.speaker ∧
          (l.foldl (matchStep s e) acc).2 = overlapDur s e t ∧
          0 < overlapDur s e t) ∧
      (∀ t ∈ l, overlapDur s e t ≤ (l.foldl (matchStep s e) acc).2) := by
  intro l
  induction l with
  | nil =>
    intro acc h0
    refine ⟨le_refl _, Or.inl rfl, ?_⟩
    intro t ht
    exact absurd ht (List.not_mem_nil t)
  | cons t ts ih =>
    intro acc h0
    rw [List.foldl_cons]
    by_cases hc : 0 < overlapDur s e t ∧ acc.2 < overlapDur s e t
    · have hstep : matchStep s e acc t = (some t.speaker, overlapDur s e t) := by
        rw [matchStep_eq, if_pos hc]
      rw [hstep]
      obtain ⟨iha, ihb, ihc⟩ := ih (some t.speaker, overlapDur s e t) (le_of_lt hc.1)
      refine ⟨le_trans (le_of_lt hc.2) iha, ?_, ?_⟩
      · rcases ihb with heq | ⟨u, hu, h1, h2, h3⟩
        · exact Or.inr ⟨t, by simp, by rw [heq], by rw [heq], hc.1⟩
        · exact Or.inr ⟨u, by simp [hu], h1, h2, h3⟩
      · intro u hu
        rcases List.mem_cons.mp hu with rfl | hu'
        · exact le_trans (le_of_eq rfl) iha
        · exact ihc u hu'
    · have hstep : matchStep s e acc t = acc := by
        rw [matchStep_eq, if_neg hc]
      rw [hstep]
      obtain ⟨iha, ihb, ihc⟩ := ih acc h0
      refine ⟨iha, ?_, ?_⟩
      · rcases ihb with heq | ⟨u, hu, h1, h2, h3⟩
        · exact Or.inl heq
        · exact Or.inr ⟨u, by simp [hu], h1, h2, h3⟩
      · intro u hu
        rcases List.mem_cons.mp hu with rfl | hu'
        · push_neg at hc
          rcases lt_or_le 0 (overlapDur s e u) with hpos | hle
          · exact le_trans (le_of_not_lt (fun hlt => absurd (hc hpos) (not_le.mpr hlt))) iha
          · exact le_trans (le_trans hle h0) iha
        · exact ihc u hu'

theorem foldl_matchStep_first_max (s e : ℚ) (pre post : List SpeakerSeg)
    (t : SpeakerSeg) (hpos : 0 < overlapDur s e t)
    (hpre : ∀ u ∈ pre, overlapDur s e u < overlapDur s e t)
    (hpost : ∀ u ∈ post, overlapDur s e u ≤ overlapDur s e t) :
    (pre ++ t :: post).foldl (matchStep s e) (none, 0) =
      (some t.speaker, overlapDur s e t) := by
  rw [List.foldl_append, List.foldl_cons]
  have hlt : (pre.foldl (matchStep s e) ((none : Option String), (0 : ℚ))).2 <
      overlapDur s e t :=
    foldl_matchStep_lt s e (overlapDur s e t) pre (none, 0) hpos hpre
  have hstep : matchStep s e (pre.foldl (matchStep s e) (none, 0)) t =
      (some t.speaker, overlapDur s e t) := by
    rw [matchStep_eq, if_pos ⟨hpos, hlt⟩]
  rw [hstep]
  exact foldl_matchStep_no_update s e post _ hpost

/-- C1: for every transcribed segment and list of speaker turns supplied in
order, the shared selection loop picks a turn of maximal overlap
`max(0, min(S.end, turn.end) - max(S.start, turn.start))`; a turn replaces the
current best only when its overlap is strictly greater, so the first turn of
maximal overlap wins ties, and a turn whose overlap is zero (including
touching boundaries) is never selected. -/
theorem c1_interval_matcher (s e : ℚ) (turns : List SpeakerSeg) :
    ((∀ t ∈ turns, overlapDur s e t = 0) →
      (findBestSpeaker s e turns).1 = none) ∧
    (∀ (pre post : List SpeakerSeg) (t : SpeakerSeg),
      turns = pre ++ t :: post →
      0 < overlapDur s e t →
      (∀ u ∈ pre, overlapDur s e u < overlapDur s e t) →
      (∀ u ∈ post, overlapDur s e u ≤ overlapDur s e t) →
      (findBestSpeaker s e turns).1 = some t.speaker) ∧
    (∀ sp, (findBestSpeaker s e turns).1 = some sp →
      ∃ t ∈ turns, t.speaker = sp ∧ 0 < overlapDur s e t ∧
        ∀ u ∈ turns, overlapDur s e u ≤ overlapDur s e t) := by
  refine ⟨?_, ?_, ?_⟩
  · intro hz
    have heq : findBestSpeaker s e turns = (none, 0) :=
      foldl_matchStep_no_update s e turns (none, 0)
        (fun t ht => le_of_eq (hz t ht))
    rw [heq]
  · intro pre post t hsplit hpos hpre hpost
    unfold findBestSpeaker
    rw [hsplit, foldl_matchStep_first_max s e pre post t hpos hpre hpost]
  · intro sp hsp
    obtain ⟨-, hb, hc⟩ :=
      foldl_matchStep_sound s e turns (none, 0) (le_refl 0)
    rcases hb with heq | ⟨t, ht, h1, h2, h3⟩
    · rw [show findBestSpeaker s e turns = turns.foldl (matchStep s e) (none, 0)
        from rfl, heq] at hsp
      exact absurd hsp (by simp)
    · refine ⟨t, ht, ?_, h3, ?_⟩
      · have : findBestSpeaker s e turns = turns.foldl (matchStep s e) (none, 0) := rfl
        rw [this, h1] at hsp
        exact (Option.some.injEq _ _ ▸ hsp).symm ▸ rfl
      · intro u hu
        have := hc u hu
        rw [h2] at this
        exact this

/-- Witness for C1 at the spec's concrete examples: segment `[0,5]` against
turns `A=[0,3]` (overlap 3) and `B=[3,6]` (overlap 2) selects `A`; segment
`[10,12]` against turn `A=[0,5]` (no overlap) selects nothing. -/
theorem c1_interval_matcher_witness :
    (findBestSpeaker 0 5 [⟨"A", 0, 3⟩, ⟨"B", 3, 6⟩]).1 = some "A" ∧
    (findBestSpeaker 10 12 [⟨"A", 0, 5⟩]).1 = none := by
  constructor
  · refine (c1_interval_matcher 0 5 _).2.1 [] [⟨"B", 3, 6⟩] ⟨"A", 0, 3⟩ rfl
      (by norm_num [overlapDur]) (by intro u hu; exact absurd hu (List.not_mem_nil u))
      ?_
    intro u hu
    rw [List.mem_singleton] at hu
    subst hu
    norm_num [overlapDur]
  · refine (c1_interval_matcher 10 12 _).1 ?_
    intro u hu
    rw [List.mem_singleton] at hu
    subst hu
    norm_num [overlapDur]

end TranscribeModel

open TranscribeModel

/-- C10: both matching steps produce exactly one resolved segment per input
transcribed segment, in input order, with start and end equal to the input's
(offset-corrected, for the chunked pipeline) bounds and text equal to the
input text stripped of leading/trailing whitespace — including for segments
that match no turn. -/
theorem c10_segment_shape :
    (∀ (transcription : List TransSegment) (speaker_segments : List SpeakerSeg)
        (speaker_names : List (String × String)),
      (Transcribe.matchTranscriptionWithSpeakers transcription speaker_segments
            speaker_names).map (fun r => (r.start, r.«end», r.text))
        = transcription.map (fun ts => (ts.start, ts.«end», pyStrip ts.text))) ∧
    (∀ (start_time : ℚ) (transcription : List TransSegment)
        (diar : List AsyncTranscribe.DiarTurn),
      (AsyncTranscribe.processChunkCore start_time transcription diar).map
            (fun r => (r.start, r.«end», r.text))
        = transcription.map (fun ts =>
            (ts.start + start_time, ts.«end» + start_time, pyStrip ts.text))) := by
  constructor
  · intro transcription speaker_segments speaker_names
    simp [Transcribe.matchTranscriptionWithSpeakers, List.map_map]
  · intro start_time transcription diar
    simp [AsyncTranscribe.processChunkCore, List.map_map]

/-- C4 counterexample: at the spec's own example (segment `[10,12]`, turn
`A=[0,5]`, no overlap) the single-pass script `transcribe.py` labels the
segment `"Unknown"`, not `"Unknown Speaker"`. -/
theorem c4_counterexample :
    (Transcribe.matchTranscriptionWithSpeakers [⟨10, 12, "x"⟩] [⟨"A", 0, 5⟩] []).map
        (fun r => r.speaker) = ["Unknown"] ∧
    ("Unknown" : String) ≠ "Unknown Speaker" := by
  constructor
  · have hz : findBestSpeaker 10 12 [⟨"A", 0, 5⟩] = (none, 0) :=
      foldl_matchStep_no_update 10 12 _ (none, 0) (by
        intro t ht
        rw [List.mem_singleton] at ht
        subst ht
        norm_num [overlapDur])
    simp [Transcribe.matchTranscriptionWithSpeakers, hz, Transcribe.speakerLabelOf]
  · decide

/-- C4 (amended): a transcribed segment with positive overlap with no speaker
turn is labelled `"Unknown Speaker"` by the chunked pipeline
(`async-transcribe.py`) but `"Unknown"` by the single-pass script
(`transcribe.py`). -/
theorem c4_unmatched_label :
    (∀ (transcription : List TransSegment) (speaker_segments : List SpeakerSeg)
        (speaker_names : List (String × String)) (i : ℕ) (ts : TransSegment),
      transcription[i]? = some ts →
      (∀ u ∈ speaker_segments, overlapDur ts.start ts.«end» u = 0) →
      ∃ r, (Transcribe.matchTranscriptionWithSpeakers transcription
          speaker_segments speaker_names)[i]? = some r ∧ r.speaker = "Unknown") ∧
    (∀ (start_time : ℚ) (transcription : List TransSegment)
        (diar : List AsyncTranscribe.DiarTurn) (i : ℕ) (ts : TransSegment),
      transcription[i]? = some ts →
      (∀ u ∈ AsyncTranscribe.chunkSpeakerSegments start_time diar,
        overlapDur (ts.start + start_time) (ts.«end» + start_time) u = 0) →
      ∃ r, (AsyncTranscribe.processChunkCore start_time transcription diar)[i]?
          = some r ∧ r.speaker = "Unknown Speaker") := by
  constructor
  · intro transcription speaker_segments speaker_names i ts hts hz
    have hnone : findBestSpeaker ts.start ts.«end» speaker_segments = (none, 0) :=
      foldl_matchStep_no_update _ _ _ (none, 0) (fun u hu => le_of_eq (hz u hu))
    unfold Transcribe.matchTranscriptionWithSpeakers
    rw [List.getElem?_map, hts, Option.map_some']
    refine ⟨_, rfl, ?_⟩
    simp [hnone, Transcribe.speakerLabelOf]
  · intro start_time transcription diar i ts hts hz
    have hnone : findBestSpeaker (ts.start + start_time) (ts.«end» + start_time)
        (AsyncTranscribe.chunkSpeakerSegments start_time diar) = (none, 0) :=
      foldl_matchStep_no_update _ _ _ (none, 0) (fun u hu => le_of_eq (hz u hu))
    unfold AsyncTranscribe.processChunkCore
    rw [List.getElem?_map, hts, Option.map_some']
    refine ⟨_, rfl, ?_⟩
    simp [hnone, AsyncTranscribe.asyncSpeakerLabel]

/-- Witness for C4's amended statement at the spec's example inputs. -/
theorem c4_unmatched_label_witness :
    (∃ r, (Transcribe.matchTranscriptionWithSpeakers [⟨10, 12, "x"⟩]
        [⟨"A", 0, 5⟩] [])[0]? = some r ∧ r.speaker = "Unknown") ∧
    (∃ r, (AsyncTranscribe.processChunkCore 600 [⟨30, 32, "x"⟩] [])[0]? = some r ∧
      r.speaker = "Unknown Speaker") := by
  constructor
  · refine c4_unmatched_label.1 [⟨10, 12, "x"⟩] [⟨"A", 0, 5⟩] [] 0 ⟨10, 12, "x"⟩ rfl ?_
    intro u hu
    rw [List.mem_singleton] at hu
    subst hu
    norm_num [overlapDur]
  · refine c4_unmatched_label.2 600 [⟨30, 32, "x"⟩] [] 0 ⟨30, 32, "x"⟩ rfl ?_
    intro u hu
    simp [AsyncTranscribe.chunkSpeakerSegments] at hu

/-- C5: after a full pipeline run over any sequence of chunks — including
chunks that fail and contribute zero segments — the final timeline written to
the output path is sorted non-decreasing by segment start. -/
theorem c5_final_timeline_sorted :
    (∀ chunks, List.Sorted (fun a b : ResolvedSegment => a.start ≤ b.start)
      (AsyncTranscribe.processAudio chunks)) ∧
    (∀ msg, AsyncTranscribe.processChunk (Except.error msg) = []) := by
  constructor
  · intro chunks
    unfold AsyncTranscribe.processAudio
    exact List.sorted_insertionSort _ _
  · intro msg
    rfl

namespace AsyncTranscribe

theorem mem_dedupAux :
    ∀ (l seen : List String) (x : String),
      x ∈ dedupAux l seen ↔ x ∈ l ∧ x ∉ seen := by
  intro l
  induction l with
  | nil =>
    intro seen x
    simp [dedupAux]
  | cons a as ih =>
    intro seen x
    by_cases ha : a ∈ seen
    · simp only [dedupAux, if_pos ha, ih, List.mem_cons]
      constructor
      · rintro ⟨h1, h2⟩
        exact ⟨Or.inr h1, h2⟩
      · rintro ⟨h1 | h1, h2⟩
        · subst h1
          exact absurd ha h2
        · exact ⟨h1, h2⟩
    · simp only [dedupAux, if_neg ha, List.mem_cons, ih]
      by_cases hx : x = a
      · subst hx
        simp [ha]
      · simp [hx, List.mem_cons]

theorem nodup_dedupAux : ∀ (l seen : List String), (dedupAux l seen).Nodup := by
  intro l
  induction l with
  | nil =>
    intro seen
    simp [dedupAux]
  | cons a as ih =>
    intro seen
    by_cases ha : a ∈ seen
    · simp only [dedupAux, if_pos ha]
      exact ih seen
    · simp only [dedupAux, if_neg ha]
      rw [List.nodup_cons]
      constructor
      · intro hmem
        exact ((mem_dedupAux as (a :: seen) a).mp hmem).2 (by simp)
      · exact ih (a :: seen)

theorem nodup_uniqueSpeakers (tags : List String) : (uniqueSpeakers tags).Nodup :=
  ((List.perm_insertionSort _ _).nodup_iff).mpr (nodup_dedupAux tags [])

theorem mem_uniqueSpeakers (tags : List String) (x : String) :
    x ∈ uniqueSpeakers tags ↔ x ∈ tags := by
  unfold uniqueSpeakers dedupFirst
  rw [(List.perm_insertionSort _ _).mem_iff, mem_dedupAux]
  simp

theorem lookup_labelTags :
    ∀ (l : List String) (n i : ℕ) (h : i < l.length), l.Nodup →
      (labelTags n l).lookup l[i] = some ("Speaker " ++ toString (n + i)) := by
  intro l
  induction l with
  | nil =>
    intro n i h
    simp at h
  | cons a as ih =>
    intro n i h hnd
    cases i with
    | zero =>
      simp [labelTags, List.lookup]
    | succ i =>
      have ha : a ∉ as := (List.nodup_cons.mp hnd).1
      have hi : i < as.length := by
        simpa using Nat.lt_of_succ_lt_succ h
      have hia : (as[i] == a) = false := by
        rw [beq_eq_false_iff_ne]
        intro he
        exact ha (he ▸ List.getElem_mem hi)
      rw [List.getElem_cons_succ]
      simp only [labelTags, List.lookup, hia]
      rw [ih (n + 1) i hi (List.nodup_cons.mp hnd).2]
      have harith : n + 1 + i = n + (i + 1) := by omega
      rw [harith]

end AsyncTranscribe

/-- C2 counterexample: diarization output in which tag `SPEAKER_01` appears
before `SPEAKER_00`.  The code's map (built from `sorted(set(...))`) gives
`SPEAKER_01` the label `"Speaker 2"`, while labelling by first appearance —
what the claim states — would give it `"Speaker 1"`. -/
theorem c2_counterexample :
    (AsyncTranscribe.speakerMapping ["SPEAKER_01", "SPEAKER_00"]).lookup "SPEAKER_01"
        = some "Speaker 2" ∧
    (AsyncTranscribe.firstAppearanceMapping ["SPEAKER_01", "SPEAKER_00"]).lookup
        "SPEAKER_01" = some "Speaker 1" := by
  constructor
  · rfl
  · rfl

/-- C2 (amended): the per-window map assigns labels `"Speaker 1"`,
`"Speaker 2"`, ... to the distinct tags in ascending Python-string order
(`sorted(set(...))` at `async-transcribe.py` line 72), not in order of first
appearance: `uniqueSpeakers` is sorted, contains exactly the window's tags,
and its `i`-th entry is mapped to `"Speaker (i+1)"`. -/
theorem c2_sorted_labeling (tags : List String) (i : ℕ)
    (h : i < (AsyncTranscribe.uniqueSpeakers tags).length) :
    List.Sorted (fun a b => pyStrLe a b = true)
        (AsyncTranscribe.uniqueSpeakers tags) ∧
    (∀ x, x ∈ AsyncTranscribe.uniqueSpeakers tags ↔ x ∈ tags) ∧
    (AsyncTranscribe.speakerMapping tags).lookup
        ((AsyncTranscribe.uniqueSpeakers tags)[i])
      = some ("Speaker " ++ toString (i + 1)) := by
  refine ⟨?_, AsyncTranscribe.mem_uniqueSpeakers tags, ?_⟩
  · exact @List.sorted_insertionSort String (fun a b => pyStrLe a b = true) _
      ⟨pyStrLe_total⟩ ⟨pyStrLe_trans⟩ _
  · unfold AsyncTranscribe.speakerMapping
    rw [AsyncTranscribe.lookup_labelTags _ 1 i h
      (AsyncTranscribe.nodup_uniqueSpeakers tags)]
    rw [Nat.add_comm 1 i]

/-- Witness for C2's amended statement: for the window tags
`[SPEAKER_01, SPEAKER_00]` the smallest distinct tag `SPEAKER_00` is labelled
`"Speaker 1"`. -/
theorem c2_sorted_labeling_witness :
    0 < (AsyncTranscribe.uniqueSpeakers ["SPEAKER_01", "SPEAKER_00"]).length ∧
    (AsyncTranscribe.speakerMapping ["SPEAKER_01", "SPEAKER_00"]).lookup "SPEAKER_00"
      = some "Speaker 1" := by
  refine ⟨by decide, ?_⟩
  have h := (c2_sorted_labeling ["SPEAKER_01", "SPEAKER_00"] 0 (by decide)).2.2
  have e : AsyncTranscribe.uniqueSpeakers ["SPEAKER_01", "SPEAKER_00"]
      = ["SPEAKER_00", "SPEAKER_01"] := by decide
  simp only [e, List.getElem_cons_zero] at h
  exact h

/-- C3: the tag-to-name pairing of `find_speaker_introductions` iterates a
Python `set` (line 59), whose iteration order is arbitrary; under the
admissible iteration order `[SPEAKER_01, SPEAKER_00]` of the intro tags
(first seen in the order `SPEAKER_00`, `SPEAKER_00`, `SPEAKER_01`), the
first-seen tag `SPEAKER_00` is paired with `"Bob"`, not `"Alice"` as the
claim — and the code's own comment "Map speakers to names based on order of
appearance" — require. -/
theorem c3_set_iteration_order :
    Transcribe.IsSetIteration ["SPEAKER_00", "SPEAKER_00", "SPEAKER_01"]
        ["SPEAKER_01", "SPEAKER_00"] ∧
    Transcribe.findSpeakerIntroductions
        (fun _ => (Except.ok ["Alice", "Bob"] : Except Unit (List String)))
        (fun _ => ["SPEAKER_01", "SPEAKER_00"])
        [⟨0, 5, "Hi, I am Alice. And I am Bob."⟩]
        [⟨"SPEAKER_00", 0, 10⟩, ⟨"SPEAKER_00", 10, 12⟩, ⟨"SPEAKER_01", 12, 20⟩] 30
      = Except.ok [("SPEAKER_01", "Alice"), ("SPEAKER_00", "Bob")] := by
  refine ⟨⟨by decide, ?_⟩, ?_⟩
  · intro a
    simp only [List.mem_cons, List.not_mem_nil, or_false]
    tauto
  · rfl

/-- C8 counterexample: a failing name extractor makes
`find_speaker_introductions` itself fail — the result is the propagated
error, not the empty mapping the claim describes. -/
theorem c8_counterexample :
    Transcribe.findSpeakerIntroductions
        (fun _ => (Except.error () : Except Unit (List String)))
        AsyncTranscribe.dedupFirst [⟨0, 5, "hi"⟩] [⟨"A", 0, 5⟩] 30
      = Except.error () ∧
    (Except.error () : Except Unit (List (String × String))) ≠ Except.ok [] := by
  constructor
  · rfl
  · simp

/-- C8 (amended): there is no `try/except` around the name-extraction call
(`transcribe.py` lines 27-31 and 56), so a failure of the collaborator
propagates out of `find_speaker_introductions` — and hence aborts the
pipeline — instead of degrading to an empty mapping. -/
theorem c8_propagates_failure {ε : Type} (extract_names : String → Except ε (List String))
    (set_iter : List String → List String) (transcription : List TransSegment)
    (speaker_segments : List SpeakerSeg) (intro_duration : ℚ) (err : ε)
    (hfail : extract_names (Transcribe.introText transcription intro_duration)
      = Except.error err) :
    Transcribe.findSpeakerIntroductions extract_names set_iter transcription
      speaker_segments intro_duration = Except.error err := by
  simp only [Transcribe.findSpeakerIntroductions, hfail]
  rfl

/-- Witness for C8's amended statement at a concrete failing extractor. -/
theorem c8_propagates_failure_witness :
    Transcribe.findSpeakerIntroductions
        (fun _ => (Except.error 7 : Except ℕ (List String)))
        AsyncTranscribe.dedupFirst [⟨0, 5, "hi"⟩] [⟨"A", 0, 5⟩] 30
      = Except.error 7 :=
  c8_propagates_failure _ _ _ _ _ 7 rfl

namespace TranscribeModel

theorem dictGetD_insert {β : Type} :
    ∀ (d : List (String × β)) (k : String) (v : β) (p : String) (dflt : β),
      dictGetD (dictInsert d k v) p dflt = if p = k then v else dictGetD d p dflt := by
  intro d
  induction d with
  | nil =>
    intro k v p dflt
    by_cases h : p = k
    · have hbeq : (p == k) = true := beq_iff_eq.mpr h
      simp [dictInsert, dictGetD, List.lookup, hbeq, h]
    · have hbeq : (p == k) = false := beq_eq_false_iff_ne.mpr h
      simp [dictInsert, dictGetD, List.lookup, hbeq, h]
  | cons kv rest ih =>
    obtain ⟨k', v'⟩ := kv
    intro k v p dflt
    by_cases hk : k' = k
    · subst hk
      simp only [dictInsert, if_pos rfl]
      by_cases hp : p = k'
      · have hbeq : (p == k') = true := beq_iff_eq.mpr hp
        simp [dictGetD, List.lookup, hbeq, hp]
      · have hbeq : (p == k') = false := beq_eq_false_iff_ne.mpr hp
        simp [dictGetD, List.lookup, hbeq, hp]
    · simp only [dictInsert, if_neg hk]
      by_cases hp : p = k'
      · have hbeq : (p == k') = true := beq_iff_eq.mpr hp
        have hpk : ¬ p = k := fun he => hk ((hp.symm.trans he))
        simp [dictGetD, List.lookup, hbeq, hpk]
      · have hbeq : (p == k') = false := beq_eq_false_iff_ne.mpr hp
        simp only [dictGetD, List.lookup, hbeq]
        exact ih k v p dflt

end TranscribeModel

namespace TranscriptFormatter

theorem processFileStep_pos (now : String) (r : PassResult) (f : JsonFile)
    (hc : f.mtime > dictGetD r.state f.path 0) :
    processFileStep now r f =
      ⟨dictInsert r.state f.path f.mtime, r.attempts ++ [f.path],
        r.writes ++ formatTranscript now f⟩ := by
  simp only [processFileStep]
  rw [if_pos hc]

theorem processFileStep_neg (now : String) (r : PassResult) (f : JsonFile)
    (hc : ¬ f.mtime > dictGetD r.state f.path 0) :
    processFileStep now r f = r := by
  simp only [processFileStep]
  rw [if_neg hc]

theorem step_state_mono (now : String) (r : PassResult) (f : JsonFile) (p : String) :
    dictGetD r.state p 0 ≤ dictGetD (processFileStep now r f).state p 0 := by
  by_cases hc : f.mtime > dictGetD r.state f.path 0
  · rw [processFileStep_pos now r f hc]
    show dictGetD r.state p 0 ≤ dictGetD (dictInsert r.state f.path f.mtime) p 0
    rw [dictGetD_insert]
    by_cases hp : p = f.path
    · rw [if_pos hp]
      subst hp
      exact le_of_lt hc
    · rw [if_neg hp]
  · rw [processFileStep_neg now r f hc]

theorem step_state_other (now : String) (r : PassResult) (f : JsonFile) (p : String)
    (hne : ¬ p = f.path) :
    dictGetD (processFileStep now r f).state p 0 = dictGetD r.state p 0 := by
  by_cases hc : f.mtime > dictGetD r.state f.path 0
  · rw [processFileStep_pos now r f hc]
    show dictGetD (dictInsert r.state f.path f.mtime) p 0 = dictGetD r.state p 0
    rw [dictGetD_insert, if_neg hne]
  · rw [processFileStep_neg now r f hc]

theorem foldl_state_mono (now : String) :
    ∀ (files : List JsonFile) (r : PassResult) (p : String),
      dictGetD r.state p 0 ≤
        dictGetD (files.foldl (processFileStep now) r).state p 0 := by
  intro files
  induction files with
  | nil =>
    intro r p
    exact le_refl _
  | cons f fs ih =>
    intro r p
    rw [List.foldl_cons]
    exact le_trans (step_state_mono now r f p) (ih (processFileStep now r f) p)

theorem foldl_state_covers (now : String) :
    ∀ (files : List JsonFile) (r : PassResult) (f : JsonFile), f ∈ files →
      f.mtime ≤ dictGetD (files.foldl (processFileStep now) r).state f.path 0 := by
  intro files
  induction files with
  | nil =>
    intro r f hf
    exact absurd hf (List.not_mem_nil f)
  | cons g gs ih =>
    intro r f hf
    rw [List.foldl_cons]
    rcases List.mem_cons.mp hf with rfl | hf'
    · refine le_trans ?_ (foldl_state_mono now gs (processFileStep now r f) f.path)
      by_cases hc : f.mtime > dictGetD r.state f.path 0
      · rw [processFileStep_pos now r f hc]
        show f.mtime ≤ dictGetD (dictInsert r.state f.path f.mtime) f.path 0
        rw [dictGetD_insert, if_pos rfl]
      · rw [processFileStep_neg now r f hc]
        exact le_of_not_lt hc
    · exact ih (processFileStep now r g) f hf'

theorem foldl_noop (now : String) :
    ∀ (files : List JsonFile) (r : PassResult),
      (∀ f ∈ files, ¬ f.mtime > dictGetD r.state f.path 0) →
      files.foldl (processFileStep now) r = r := by
  intro files
  induction files with
  | nil =>
    intro r _
    rfl
  | cons g gs ih =>
    intro r h
    rw [List.foldl_cons, processFileStep_neg now r g (h g (by simp))]
    exact ih r (fun f hf => h f (by simp [hf]))

theorem foldl_state_other (now : String) :
    ∀ (files : List JsonFile) (r : PassResult) (p : String),
      (∀ f ∈ files, f.path ≠ p) →
      dictGetD (files.foldl (processFileStep now) r).state p 0 =
        dictGetD r.state p 0 := by
  intro files
  induction files with
  | nil =>
    intro r p _
    rfl
  | cons g gs ih =>
    intro r p h
    rw [List.foldl_cons, ih (processFileStep now r g) p (fun f hf => h f (by simp [hf]))]
    exact step_state_other now r g p (fun he => h g (by simp) he.symm)

theorem foldl_state_of_mem (now : String) :
    ∀ (files : List JsonFile) (r : PassResult) (f : JsonFile),
      f ∈ files → (files.map (fun x => x.path)).Nodup →
      dictGetD r.state f.path 0 < f.mtime →
      dictGetD (files.foldl (processFileStep now) r).state f.path 0 = f.mtime := by
  intro files
  induction files with
  | nil =>
    intro r f hf _ _
    exact absurd hf (List.not_mem_nil f)
  | cons g gs ih =>
    intro r f hf hnd hlt
    have hg : g.path ∉ gs.map (fun x => x.path) :=
      (List.nodup_cons.mp (by simpa using hnd)).1
    have hnd' : (gs.map (fun x => x.path)).Nodup :=
      (List.nodup_cons.mp (by simpa using hnd)).2
    rw [List.foldl_cons]
    rcases List.mem_cons.mp hf with rfl | hf'
    · rw [foldl_state_other now gs (processFileStep now r f) f.path
        (fun u hu he => hg (he ▸ List.mem_map_of_mem (fun x => x.path) hu))]
      rw [processFileStep_pos now r f hlt]
      show dictGetD (dictInsert r.state f.path f.mtime) f.path 0 = f.mtime
      rw [dictGetD_insert, if_pos rfl]
    · have hne : ¬ f.path = g.path := by
        intro he
        exact hg (he ▸ List.mem_map_of_mem (fun x => x.path) hf')
      have hpres : dictGetD (processFileStep now r g).state f.path 0 =
          dictGetD r.state f.path 0 := step_state_other now r g f.path hne
      exact ih (processFileStep now r g) f hf' hnd' (hpres ▸ hlt)

end TranscriptFormatter

/-- C9: running a reconciliation pass a second time, with no file changes in
between, performs no rendering write (and attempts no file) and leaves the
`processed_files` WatchState exactly as the first pass left it. -/
theorem c9_reconcile_idempotent (now now2 : String)
    (files : List TranscriptFormatter.JsonFile) (state0 : List (String × ℚ)) :
    TranscriptFormatter.processDirectory now2 files
        (TranscriptFormatter.processDirectory now files state0).state
      = ⟨(TranscriptFormatter.processDirectory now files state0).state, [], []⟩ :=
  TranscriptFormatter.foldl_noop now2 files
    ⟨(TranscriptFormatter.processDirectory now files state0).state, [], []⟩
    (fun f hf => not_lt.mpr
      (TranscriptFormatter.foldl_state_covers now files ⟨state0, [], []⟩ f hf))

/-- C6 counterexample: a single malformed JSON file (`"a.json"`, mtime 5,
unparseable).  The first pass performs no write, yet records mtime 5 in
WatchState; a second pass attempts nothing — the file is not retried,
contradicting the claim. -/
theorem c6_counterexample :
    (TranscriptFormatter.processDirectory "t1" [⟨"a.json", 5, none⟩] []).state
        = [("a.json", 5)] ∧
    (TranscriptFormatter.processDirectory "t1" [⟨"a.json", 5, none⟩] []).writes = [] ∧
    (TranscriptFormatter.processDirectory "t2" [⟨"a.json", 5, none⟩]
        (TranscriptFormatter.processDirectory "t1" [⟨"a.json", 5, none⟩] []).state).attempts
      = [] := by
  refine ⟨rfl, rfl, rfl⟩

/-- C6 (amended): a malformed or unreadable JSON file is logged and skipped —
`format_transcript` performs no write — but `process_directory` still
records the file's modification time in WatchState (line 69 runs regardless,
because `format_transcript` swallows its own exceptions), so the file is not
attempted again on the next reconciliation pass. -/
theorem c6_malformed_state_updated (now now2 : String)
    (files : List TranscriptFormatter.JsonFile) (state0 : List (String × ℚ))
    (f : TranscriptFormatter.JsonFile) (hf : f ∈ files) (hmal : f.contents = none)
    (hnd : (files.map (fun x => x.path)).Nodup)
    (hnew : dictGetD state0 f.path 0 < f.mtime) :
    TranscriptFormatter.formatTranscript now f = [] ∧
    dictGetD (TranscriptFormatter.processDirectory now files state0).state f.path 0
        = f.mtime ∧
    (TranscriptFormatter.processDirectory now2 files
        (TranscriptFormatter.processDirectory now files state0).state).attempts
      = [] := by
  refine ⟨?_, ?_, ?_⟩
  · simp [TranscriptFormatter.formatTranscript, hmal]
  · exact TranscriptFormatter.foldl_state_of_mem now files ⟨state0, [], []⟩ f hf hnd hnew
  · have hnoop : TranscriptFormatter.processDirectory now2 files
        (TranscriptFormatter.processDirectory now files state0).state
        = ⟨(TranscriptFormatter.processDirectory now files state0).state, [], []⟩ :=
      TranscriptFormatter.foldl_noop now2 files
        ⟨(TranscriptFormatter.processDirectory now files state0).state, [], []⟩
        (fun g hg => not_lt.mpr
          (TranscriptFormatter.foldl_state_covers now files ⟨state0, [], []⟩ g hg))
    rw [hnoop]

/-- Witness for C6's amended statement at the single-file directory of the
counterexample. -/
theorem c6_malformed_state_updated_witness :
    (⟨"a.json", 5, none⟩ : TranscriptFormatter.JsonFile) ∈
        [(⟨"a.json", 5, none⟩ : TranscriptFormatter.JsonFile)] ∧
    dictGetD ([] : List (String × ℚ)) "a.json" 0 < 5 ∧
    (TranscriptFormatter.formatTranscript "t1" ⟨"a.json", 5, none⟩ = [] ∧
      dictGetD (TranscriptFormatter.processDirectory "t1" [⟨"a.json", 5, none⟩] []).state
          "a.json" 0 = 5 ∧
      (TranscriptFormatter.processDirectory "t2" [⟨"a.json", 5, none⟩]
          (TranscriptFormatter.processDirectory "t1" [⟨"a.json", 5, none⟩] []).state).attempts
        = []) := by
  refine ⟨by simp, ?_, ?_⟩
  · show (0 : ℚ) < 5
    norm_num
  · exact c6_malformed_state_updated "t1" "t2" [⟨"a.json", 5, none⟩] [] ⟨"a.json", 5, none⟩
      (by simp) rfl (by simp) (by show (0 : ℚ) < 5; norm_num)

/-- C7 counterexample: writing new content `"y"` over old content `"x"` with
the code's `open(path, 'w')` + `json.dump` discipline exposes the
intermediate empty file to a concurrent reader — an observable state that is
neither the previous content nor the new content. -/
theorem c7_counterexample :
    FileWrite.observedContents "x" (FileWrite.timelineWriteOps "y") = ["x", "", "y"] ∧
    ¬ (("" : String) = "x" ∨ ("" : String) = "y") := by
  constructor
  · rfl
  · decide

/-- C7 (amended): every timeline write opens the output path in truncating
mode and writes the document in place — no temporary file, no rename — so
whenever both the previous and the new content are nonempty, a concurrent
reader can observe a state (the truncated empty file) that is neither the
complete previous content nor the complete new content. -/
theorem c7_not_atomic (old data : String) (h1 : old ≠ "") (h2 : data ≠ "") :
    ∃ c ∈ FileWrite.observedContents old (FileWrite.timelineWriteOps data),
      c ≠ old ∧ c ≠ data := by
  refine ⟨"", ?_, fun h => h1 h.symm, fun h => h2 h.symm⟩
  show ("" : String) ∈ FileWrite.observedContents old (FileWrite.timelineWriteOps data)
  simp [FileWrite.observedContents, FileWrite.timelineWriteOps, FileWrite.applyOp,
    List.scanl]

/-- Witness for C7's amended statement at concrete contents. -/
theorem c7_not_atomic_witness :
    ("x" : String) ≠ "" ∧ ("y" : String) ≠ "" ∧
    ∃ c ∈ FileWrite.observedContents "x" (FileWrite.timelineWriteOps "y"),
      c ≠ "x" ∧ c ≠ "y" :=
  ⟨by decide, by decide, c7_not_atomic "x" "y" (by decide) (by decide)⟩
